import Mathlib

/-!
Verification of the RTPXO train-traffic optimization core.

A shallow embedding of the conflict detection, recommendation, simulation and
batch-optimization engine of the repository (src/lib/optimization-engine.ts and
the ConflictResolver of src/unnamed/part_000), together with theorems settling
the frozen claims about it.

Modelling conventions:
* JavaScript numbers are modelled as exact rationals (`Rat`).  All arithmetic
  the claims touch (sums, differences, comparisons of small constants) is exact
  in both models.
* JavaScript `Array.prototype.sort` with a consistent comparator is a stable
  sort; it is modelled by Mathlib's stable `List.insertionSort`.
* `generateUniqueId(prefix)` appends an impure timestamp/random suffix to the
  prefix; the model keeps only the deterministic prefix (no claim relies on id
  uniqueness or id contents).
* Optional string fields (`currentStation`, `nextStation`) are `Option String`;
  the JavaScript truthiness tests treat both `undefined` and `""` as falsy,
  which the model reproduces explicitly.
* `structuredClone` produces a value disjoint from the original; in the pure
  model a clone is simply the value itself.  A separate explicit-store model
  (`simulateRecommendationH`) makes object identity visible in order to state
  the frame claims (C9, C10).
-/

/- Batteries marks the `Rat` arithmetic operations `@[irreducible]`; the
concrete witnesses below evaluate the model by kernel reduction, which needs
them unfolding. -/
attribute [local semireducible] Rat.add Rat.mul Rat.sub Rat.inv Rat.ofScientific

/-! ## Domain model (src/lib/types.ts) -/

inductive TrainType where
  | express | freight | suburban | special | maintenance
deriving DecidableEq

inductive TrainStatus where
  | on_time | delayed | cancelled | diverted
deriving DecidableEq

inductive ConflictType where
  | crossing | platform | signal | track
deriving DecidableEq

inductive Severity where
  | low | medium | high | critical
deriving DecidableEq

structure Coordinates where
  lat : Rat
  lng : Rat
deriving DecidableEq

structure TrainSchedule where
  stationId : String
  arrivalTime : String
  departureTime : String
  platform : Option Rat := none
  actualArrival : Option String := none
  actualDeparture : Option String := none
  delay : Rat
deriving DecidableEq

structure Train where
  id : String
  number : String
  name : String
  type : TrainType
  priority : Rat
  currentStation : Option String := none
  nextStation : Option String := none
  status : TrainStatus
  delay : Rat
  speed : Rat
  coordinates : Coordinates
  position : Option Coordinates := none
  route : Option String := none
  eta : Option String := none
  schedule : List TrainSchedule := []
deriving DecidableEq

inductive RecType where
  | hold | proceed | reroute | priority_change
deriving DecidableEq

structure EstimatedImpact where
  delayReduction : Rat
  affectedTrains : List String
deriving DecidableEq

structure AIRecommendation where
  id : String
  conflictId : String
  type : RecType
  targetTrain : String
  action : String
  reasoning : String
  confidence : Rat
  estimatedImpact : EstimatedImpact
  timestamp : String := ""
deriving DecidableEq

structure Conflict where
  id : String
  type : ConflictType
  trains : List String
  location : String
  severity : Severity
  estimatedDelay : Rat
  aiRecommendation : Option AIRecommendation := none
deriving DecidableEq

structure Station where
  id : String
  name : String
  code : String
  coordinates : Coordinates
  platforms : Rat
deriving DecidableEq

structure Track where
  id : String
  name : String
  fromStation : String
  toStation : String
  length : Rat
  maxSpeed : Rat
  status : String
deriving DecidableEq

/-! ## Configuration (OptimizationConstraints / ConflictResolutionOptions) -/

/-- The fields `priorityWeights` and `platformCapacity` are JS records (string-keyed maps);
they are modelled as functions into `Option Rat` (`none` = key absent). -/
structure OptimizationConstraints where
  maxDelay : Rat
  priorityWeights : TrainType → Option Rat
  safetyBuffer : Rat
  platformCapacity : String → Option Rat
  reroutingDelay : Rat
  minTrainSpeed : Rat
  singlePlatformDelay : Rat
  multiPlatformDelay : Rat

structure ConflictResolutionOptions where
  allowRerouting : Bool
  allowPriorityOverride : Bool
  maxSimulationDepth : Nat
  optimizationObjective : String

/-- Default priority weight table from the engine constructor. -/
def defaultPriorityWeights : TrainType → Option Rat := fun ty =>
  some (match ty with
    | .express => 1
    | .suburban => 0.8
    | .freight => 0.4
    | .special => 1.2
    | .maintenance => 0.2)

/-- Defaults installed by the `TrainOptimizationEngine` constructor. -/
def defaultConstraints : OptimizationConstraints :=
  { maxDelay := 30
    priorityWeights := defaultPriorityWeights
    safetyBuffer := 3
    platformCapacity := fun _ => none
    reroutingDelay := 10
    minTrainSpeed := 1
    singlePlatformDelay := 8
    multiPlatformDelay := 3 }

/-- Default options passed to the constructor. -/
def defaultOptions : ConflictResolutionOptions :=
  { allowRerouting := true
    allowPriorityOverride := false
    maxSimulationDepth := 5
    optimizationObjective := "balanced" }

/-! ## Small JavaScript-semantics helpers -/

/-- JS truthiness of an optional string: `undefined` and `""` are falsy. -/
def truthyStr : Option String → Bool
  | some s => s ≠ ""
  | none => false

/-- Model of `o || "unknown"` on an optional string. -/
def strOrUnknown : Option String → String
  | some s => if s = "" then "unknown" else s
  | none => "unknown"

/-- Model of `o || ""` on an optional string. -/
def strOrEmpty : Option String → String
  | some s => s
  | none => ""

/-- Model of `x || d` on an optional number: `undefined` and `0` fall back to `d`. -/
def numOr (x : Option Rat) (d : Rat) : Rat :=
  match x with
  | some v => if v = 0 then d else v
  | none => d

/-- Decimal rendering of a rational, standing in for JS number-to-string
conversion (exact for integral values, which is all the witnesses use). -/
def ratToString (q : Rat) : String :=
  if q.den = 1 then toString q.num else toString q.num ++ "/" ++ toString q.den

/-! ## Stable sorting by a descending rational key

All four sort sites in the source use `Array.prototype.sort` with a comparator
of the shape `(a, b) => key(b) - key(a)` (sort descending by a numeric key).
For such a consistent comparator the ECMAScript-mandated stable sort is the
stable insertion sort. -/

def sortDescBy {α : Type} (key : α → Rat) (l : List α) : List α :=
  List.insertionSort (fun a b => key b ≤ key a) l

/-! ## Arrival-time estimate and pairwise conflict checks
(TrainOptimizationEngine private helpers) -/

/-- Model of `estimateArrivalTime`: 30 / (max(speed, minTrainSpeed)/60) + delay. -/
def estimateArrivalTime (C : OptimizationConstraints) (t : Train) : Rat :=
  let baseTime : Rat := 30
  let safeSpeed := max t.speed C.minTrainSpeed
  let speedFactor := safeSpeed / 60
  baseTime / speedFactor + t.delay

/-- Model of `checkCrossingConflict` (optimization-engine.ts lines 272-289).  The JS
`===` comparison of the two (possibly undefined) `nextStation` fields is
`Option` equality. -/
def checkCrossingConflict (C : OptimizationConstraints) (t1 t2 : Train) :
    Option Conflict :=
  if t1.nextStation = t2.nextStation then
    let timeDiff := |estimateArrivalTime C t1 - estimateArrivalTime C t2|
    if timeDiff < C.safetyBuffer then
      some
        { id := "crossing_" ++ t1.id ++ "_" ++ t2.id
          type := .crossing
          trains := [t1.id, t2.id]
          location := strOrUnknown t1.nextStation
          severity := if timeDiff < 1 then .critical else .medium
          estimatedDelay := max 0 (C.safetyBuffer - timeDiff) }
    else none
  else none

/-- Model of `checkPlatformConflict` (optimization-engine.ts lines 291-307). -/
def checkPlatformConflict (C : OptimizationConstraints) (t1 t2 : Train) :
    Option Conflict :=
  if t1.currentStation = t2.currentStation then
    let stationCapacity := numOr (C.platformCapacity (strOrEmpty t1.currentStation)) 1
    let estimatedDelay :=
      if 1 < stationCapacity then C.multiPlatformDelay else C.singlePlatformDelay
    some
      { id := "platform_" ++ t1.id ++ "_" ++ t2.id
        type := .platform
        trains := [t1.id, t2.id]
        location := strOrUnknown t1.currentStation
        severity := .medium
        estimatedDelay := estimatedDelay }
  else none

/-- Model of `findTrackBetweenStations`: undirected match of a `(from, to)` pair against
the track list; falsy (`undefined`/`""`) endpoints yield `null`. -/
def findTrackBetweenStations (fromSt toSt : Option String) (tracks : List Track) :
    Option Track :=
  if truthyStr fromSt ∧ truthyStr toSt then
    tracks.find? (fun tr =>
      (tr.fromStation = strOrEmpty fromSt ∧ tr.toStation = strOrEmpty toSt) ∨
      (tr.fromStation = strOrEmpty toSt ∧ tr.toStation = strOrEmpty fromSt))
  else none

/-- Model of `checkTrackConflict` (optimization-engine.ts lines 309-325). -/
def checkTrackConflict (t1 t2 : Train) (tracks : List Track) : Option Conflict :=
  match findTrackBetweenStations t1.currentStation t1.nextStation tracks,
      findTrackBetweenStations t2.currentStation t2.nextStation tracks with
  | some tr1, some tr2 =>
    if tr1.id = tr2.id then
      some
        { id := "track_" ++ t1.id ++ "_" ++ t2.id
          type := .track
          trains := [t1.id, t2.id]
          location := tr1.id
          severity := .high
          estimatedDelay := 8 }
    else none
  | _, _ => none

/-! ## detectConflicts (optimization-engine.ts lines 60-106) -/

/-- Append a train to the bucket of `key` in an insertion-ordered association
list (the JS `Map<string, Train[]>`; `Map.set` keeps the position of an
existing key and appends new keys at the end). -/
def addToBucket (m : List (String × List Train)) (key : String) (t : Train) :
    List (String × List Train) :=
  match m with
  | [] => [(key, [t])]
  | p :: rest =>
    if p.1 = key then (p.1, p.2 ++ [t]) :: rest else p :: addToBucket rest key t

/-- One iteration of the bucketing loop: push the train into its `nextStation`
bucket, then into its `currentStation` bucket (truthiness-guarded, in source
order). -/
def bucketStep (m : List (String × List Train)) (t : Train) :
    List (String × List Train) :=
  let m1 := match t.nextStation with
    | some s => if s ≠ "" then addToBucket m s t else m
    | none => m
  match t.currentStation with
  | some s => if s ≠ "" then addToBucket m1 s t else m1
  | none => m1

/-- The `trainsByStation` map of `detectConflicts`. -/
def trainsByStation (trains : List Train) : List (String × List Train) :=
  trains.foldl bucketStep []

/-- The two checks run for one ordered pair `(train1, train2)`: crossing first,
then platform (both pushed when non-null). -/
def pairChecks (C : OptimizationConstraints) (t1 t2 : Train) : List Conflict :=
  (checkCrossingConflict C t1 t2).toList ++ (checkPlatformConflict C t1 t2).toList

/-- The double loop `for i, for j > i` over one station bucket. -/
def stationPairLoop (C : OptimizationConstraints) : List Train → List Conflict
  | [] => []
  | t :: rest => (rest.flatMap (pairChecks C t)) ++ stationPairLoop C rest

/-- The double loop `for i, for j > i` of the separate track-conflict pass. -/
def trackPairLoop (tracks : List Track) : List Train → List Conflict
  | [] => []
  | t :: rest =>
    (rest.filterMap (fun u => checkTrackConflict t u tracks)) ++
      trackPairLoop tracks rest

/-- The `activeTrains` filter: drop cancelled trains. -/
def activeTrainsOf (trains : List Train) : List Train :=
  trains.filter (fun t =>
    match t.status with
    | .cancelled => false
    | _ => true)

/-- Model of `TrainOptimizationEngine.detectConflicts`.  The `stations` parameter is
accepted but unused, exactly as in the source. -/
def detectConflicts (C : OptimizationConstraints) (trains : List Train)
    (stations : List Station) (tracks : List Track) : List Conflict :=
  let _ := stations
  ((trainsByStation (activeTrainsOf trains)).flatMap
      (fun p => stationPairLoop C p.2)) ++
    trackPairLoop tracks (activeTrainsOf trains)

/-! ## Recommendation generation (optimization-engine.ts lines 111-150, 327-390) -/

/-- The weighted priority used to rank the two conflict trains:
`priority * (priorityWeights[type] || 1.0)`. -/
def weightedPriority (C : OptimizationConstraints) (t : Train) : Rat :=
  t.priority * numOr (C.priorityWeights t.type) 1

/-- The hold duration of `generateHoldRecommendation`:
`max(3, conflict.estimatedDelay + safetyBuffer)`. -/
def holdTime (C : OptimizationConstraints) (c : Conflict) : Rat :=
  max 3 (c.estimatedDelay + C.safetyBuffer)

/-- Model of `generateHoldRecommendation` (lines 327-344). -/
def generateHoldRecommendation (C : OptimizationConstraints) (c : Conflict)
    (targetTrain priorityTrain : Train) : AIRecommendation :=
  { id := "hold_" ++ targetTrain.id
    conflictId := c.id
    type := .hold
    targetTrain := targetTrain.id
    action := "Hold " ++ targetTrain.name ++ " (" ++ targetTrain.number ++
      ") for " ++ ratToString (holdTime C c) ++ " minutes"
    reasoning := "Allow " ++ priorityTrain.name ++ " to pass first. Priority: " ++
      ratToString priorityTrain.priority ++ " vs " ++ ratToString targetTrain.priority
    confidence := 0.85
    estimatedImpact :=
      { delayReduction := c.estimatedDelay
        affectedTrains := [targetTrain.id, priorityTrain.id] } }

/-- Model of `generateRerouteRecommendation` (lines 346-369): `null` when the target
train is missing either station reference (JS truthiness). -/
def generateRerouteRecommendation (c : Conflict) (targetTrain : Train) :
    Option AIRecommendation :=
  if truthyStr targetTrain.nextStation ∧ truthyStr targetTrain.currentStation then
    some
      { id := "reroute_" ++ targetTrain.id
        conflictId := c.id
        type := .reroute
        targetTrain := targetTrain.id
        action := "Reroute " ++ targetTrain.name ++ " via alternate track"
        reasoning := "Alternative route available with minimal delay impact"
        confidence := 0.72
        estimatedImpact :=
          { delayReduction := c.estimatedDelay * 0.6
            affectedTrains := [targetTrain.id] } }
  else none

/-- Model of `generatePriorityChangeRecommendation` (lines 371-390). -/
def generatePriorityChangeRecommendation (c : Conflict)
    (highPriorityTrain lowPriorityTrain : Train) : AIRecommendation :=
  { id := "priority_" ++ highPriorityTrain.id
    conflictId := c.id
    type := .priority_change
    targetTrain := highPriorityTrain.id
    action := "Temporarily reduce priority of " ++ highPriorityTrain.name
    reasoning :=
      "Critical situation requires priority adjustment to minimize system-wide delays"
    confidence := 0.65
    estimatedImpact :=
      { delayReduction := c.estimatedDelay * 0.4
        affectedTrains := [highPriorityTrain.id, lowPriorityTrain.id] } }

/-- Model of `TrainOptimizationEngine.generateRecommendations` (lines 111-150).  The
final `match` is exhaustive in the source because the sorted list has the same
length as `conflictTrains` (at least 2); the fallback branch is unreachable. -/
def candidateRecs (C : OptimizationConstraints) (O : ConflictResolutionOptions)
    (c : Conflict) (highPriorityTrain lowPriorityTrain : Train) :
    List AIRecommendation :=
  let recs0 := [generateHoldRecommendation C c lowPriorityTrain highPriorityTrain]
  let recs1 :=
    if O.allowRerouting then
      recs0 ++ (generateRerouteRecommendation c lowPriorityTrain).toList
    else recs0
  if O.allowPriorityOverride ∧ c.severity = .critical then
    recs1 ++
      [generatePriorityChangeRecommendation c highPriorityTrain lowPriorityTrain]
  else recs1

def generateRecommendations (C : OptimizationConstraints)
    (O : ConflictResolutionOptions) (c : Conflict) (trains : List Train) :
    List AIRecommendation :=
  let conflictTrains := trains.filter (fun t => decide (t.id ∈ c.trains))
  if conflictTrains.length < 2 then []
  else
    match sortDescBy (weightedPriority C) conflictTrains with
    | highPriorityTrain :: lowPriorityTrain :: _ =>
      sortDescBy AIRecommendation.confidence
        (candidateRecs C O c highPriorityTrain lowPriorityTrain)
    | _ => []

/-! ## Simulation (optimization-engine.ts lines 155-215, 409-439) -/

/-- Model of `extractDelayFromAction`: first match of the regex `(\d+)\s*minutes?` in
the action text, parsed as a decimal integer; default 5 when absent.  Greedy
digit matching is equivalent to the regex because backtracking inside a digit
run can never make the literal `minute` match a digit. -/
def isDigitChar (c : Char) : Bool := '0' ≤ c && c ≤ '9'

def isSpaceChar (c : Char) : Bool :=
  c = ' ' || c = '\t' || c = '\n' || c = '\r' || c = '\x0b' || c = '\x0c'

def digitsToNat (ds : List Char) : Nat :=
  ds.foldl (fun n c => 10 * n + (c.toNat - '0'.toNat)) 0

def matchMinutesAt (cs : List Char) : Option Nat :=
  let ds := cs.takeWhile isDigitChar
  if ds.isEmpty then none
  else
    let rest := (cs.drop ds.length).dropWhile isSpaceChar
    if ("minute".toList).isPrefixOf rest then some (digitsToNat ds) else none

def scanMinutes : List Char → Option Nat
  | [] => none
  | c :: cs =>
    match matchMinutesAt (c :: cs) with
    | some n => some n
    | none => scanMinutes cs

def extractDelayFromAction (action : String) : Nat :=
  match scanMinutes action.toList with
  | some n => n
  | none => 5

/-- Mutate the first list element satisfying `p` (the JS `find`-then-mutate
idiom on a cloned array). -/
def updateFirst {α : Type} (p : α → Bool) (f : α → α) : List α → List α
  | [] => []
  | x :: xs => if p x then f x :: xs else x :: updateFirst p f xs

/-- Model of `sum(trains.delay)` via `reduce((sum, t) => sum + t.delay, 0)`. -/
def sumDelay (trains : List Train) : Rat :=
  trains.foldl (fun sum t => sum + t.delay) 0

/-- Model of `calculateDelayReduction` (lines 414-418): clamped at zero. -/
def calculateDelayReduction (newTrains originalTrains : List Train) : Rat :=
  max 0 (sumDelay originalTrains - sumDelay newTrains)

/-- The cloned train list after the `hold` branch of the simulator has mutated
the target train. -/
def holdSimTrains (rec : AIRecommendation) (trains : List Train) : List Train :=
  updateFirst (fun t => t.id == rec.targetTrain)
    (fun t => { t with delay := t.delay + (extractDelayFromAction rec.action : Rat) })
    trains

structure SimResult where
  totalDelayReduction : Rat
  affectedTrains : List String
  newConflicts : List Conflict
  feasible : Bool
deriving DecidableEq

/-- Model of `TrainOptimizationEngine.simulateRecommendation` (lines 155-215).  The
deep clone of a value is the value; the per-type `switch` yields the mutated
clone together with the `totalDelayReduction` it assigns. -/
def simulateRecommendation (C : OptimizationConstraints)
    (rec : AIRecommendation) (trains : List Train) (stations : List Station) :
    SimResult :=
  match trains.find? (fun t => t.id == rec.targetTrain) with
  | none =>
    { totalDelayReduction := 0
      affectedTrains := []
      newConflicts := []
      feasible := false }
  | some targetTrain =>
    let simulated : List Train × Rat :=
      match rec.type with
      | .hold =>
        let st := holdSimTrains rec trains
        (st, calculateDelayReduction st trains)
      | .reroute =>
        (updateFirst (fun t => t.id == rec.targetTrain)
          (fun t => { t with delay := t.delay + C.reroutingDelay }) trains,
         rec.estimatedImpact.delayReduction)
      | .priority_change =>
        (updateFirst (fun t => t.id == rec.targetTrain)
          (fun t => { t with priority := max 1 (t.priority - 1) }) trains,
         0)
      | .proceed => (trains, 0)
    let newConflicts := detectConflicts C simulated.1 stations []
    { totalDelayReduction := simulated.2
      affectedTrains := [targetTrain.id]
      newConflicts := newConflicts
      feasible := decide (0 < simulated.2) && newConflicts.isEmpty }

/-- Model of `applyRecommendation` (lines 420-439): permanently mutate the working set
(no-op when the target train is absent or the type is `proceed`). -/
def applyRecommendation (C : OptimizationConstraints) (rec : AIRecommendation)
    (trains : List Train) : List Train :=
  match rec.type with
  | .hold => holdSimTrains rec trains
  | .reroute =>
    updateFirst (fun t => t.id == rec.targetTrain)
      (fun t => { t with delay := t.delay + C.reroutingDelay }) trains
  | .priority_change =>
    updateFirst (fun t => t.id == rec.targetTrain)
      (fun t => { t with priority := max 1 (t.priority - 1) }) trains
  | .proceed => trains

/-! ## Batch optimizer (optimization-engine.ts lines 220-260) -/

/-- The severity weights of `optimizeSchedule`. -/
def severityWeight : Severity → Rat
  | .critical => 4
  | .high => 3
  | .medium => 2
  | .low => 1

/-- The sort key of `optimizeSchedule`: `severityWeight(severity) * estimatedDelay`. -/
def engineConflictKey (c : Conflict) : Rat :=
  severityWeight c.severity * c.estimatedDelay

/-- The conflict ordering of `optimizeSchedule` (lines 233-237). -/
def sortConflictsEngine (conflicts : List Conflict) : List Conflict :=
  sortDescBy engineConflictKey conflicts

structure OptimizeResult where
  optimizedTrains : List Train
  resolvedConflicts : List String
  totalDelayReduction : Rat
deriving DecidableEq

/-- The body of the `for (const conflict of sortedConflicts)` loop. -/
def optimizeStep (C : OptimizationConstraints) (O : ConflictResolutionOptions)
    (stations : List Station) (acc : List Train × List String × Rat)
    (conflict : Conflict) : List Train × List String × Rat :=
  let recommendations := generateRecommendations C O conflict acc.1
  match recommendations with
  | [] => acc
  | bestRecommendation :: _ =>
    let simulation := simulateRecommendation C bestRecommendation acc.1 stations
    if simulation.feasible then
      (applyRecommendation C bestRecommendation acc.1,
       acc.2.1 ++ [conflict.id],
       acc.2.2 + simulation.totalDelayReduction)
    else acc

/-- Model of `TrainOptimizationEngine.optimizeSchedule` (lines 220-260). -/
def optimizeSchedule (C : OptimizationConstraints)
    (O : ConflictResolutionOptions) (trains : List Train)
    (conflicts : List Conflict) (stations : List Station) : OptimizeResult :=
  let res := (sortConflictsEngine conflicts).foldl (optimizeStep C O stations)
    (trains, [], 0)
  { optimizedTrains := res.1
    resolvedConflicts := res.2.1
    totalDelayReduction := res.2.2 }

/-! ## ConflictResolver ordering (src/unnamed/part_000, lines 93-98 and 297-300) -/

/-- The severity weights of `ConflictResolver.calculateConflictPriority`
(note: these differ from the `optimizeSchedule` weights). -/
def resolverSeverityWeight : Severity → Rat
  | .critical => 10
  | .high => 7
  | .medium => 4
  | .low => 1

/-- Model of `ConflictResolver.calculateConflictPriority` (part_000 lines 297-300). -/
def calculateConflictPriority (c : Conflict) : Rat :=
  resolverSeverityWeight c.severity * c.estimatedDelay

/-- The conflict ordering step of `resolveMultipleConflicts` (part_000 lines
93-98): sort descending by `calculateConflictPriority`. -/
def prioritizeConflicts (conflicts : List Conflict) : List Conflict :=
  sortDescBy calculateConflictPriority conflicts

/-! ## Explicit-store model of the simulator (for the frame claims)

The pure model above cannot distinguish "mutates a clone" from "mutates the
caller's objects", because values have no identity.  This second model of
`simulateRecommendation` makes object identity explicit: the caller's train
array is a list of references into a store, `deepClone` allocates fresh cells
(that is exactly what `structuredClone` guarantees), and the per-type mutation
writes through the reference the `find` located in the *clone*.  The frame
claims are then real statements: no cell reachable from the caller is written. -/

structure TrainHeap where
  cells : List (Nat × Train)
  next : Nat

def heapLookup (h : TrainHeap) (r : Nat) : Option Train :=
  (h.cells.find? (fun p => p.1 == r)).map (fun p => p.2)

/-- Allocate a fresh cell holding `t`; returns the new reference. -/
def heapAlloc (h : TrainHeap) (t : Train) : Nat × TrainHeap :=
  (h.next, ⟨h.cells ++ [(h.next, t)], h.next + 1⟩)

/-- Overwrite the cell at reference `r`. -/
def heapSet (h : TrainHeap) (r : Nat) (t : Train) : TrainHeap :=
  ⟨h.cells.map (fun p => if p.1 = r then (p.1, t) else p), h.next⟩

/-- Model of `structuredClone` of the train array: allocate a fresh cell per element
(dangling references cannot occur in JS and are skipped). -/
def cloneRefs (h : TrainHeap) : List Nat → List Nat × TrainHeap
  | [] => ([], h)
  | r :: rs =>
    match heapLookup h r with
    | some t =>
      let a := heapAlloc h t
      let rest := cloneRefs a.2 rs
      (a.1 :: rest.1, rest.2)
    | none => cloneRefs h rs

/-- Materialize an array of references as the list of trains it denotes. -/
def readRefs (h : TrainHeap) (refs : List Nat) : List Train :=
  refs.filterMap (heapLookup h)

/-- The per-type `switch` of the simulator, writing through the reference the
`find` located in the clone. -/
def simApplyH (C : OptimizationConstraints) (rec : AIRecommendation)
    (h1 : TrainHeap) (tref : Nat) (targetTrain : Train) : TrainHeap :=
  match rec.type with
  | .hold =>
    heapSet h1 tref
      { targetTrain with
        delay := targetTrain.delay + (extractDelayFromAction rec.action : Rat) }
  | .reroute =>
    heapSet h1 tref
      { targetTrain with delay := targetTrain.delay + C.reroutingDelay }
  | .priority_change =>
    heapSet h1 tref
      { targetTrain with priority := max 1 (targetTrain.priority - 1) }
  | .proceed => h1

/-- The result record the simulator builds from the mutated store `h2`. -/
def simResultH (C : OptimizationConstraints) (rec : AIRecommendation)
    (crefs refs : List Nat) (h2 : TrainHeap) (targetTrain : Train)
    (stations : List Station) : SimResult :=
  let simulatedTrains := readRefs h2 crefs
  let totalDelayReduction :=
    match rec.type with
    | .hold => calculateDelayReduction simulatedTrains (readRefs h2 refs)
    | .reroute => rec.estimatedImpact.delayReduction
    | .priority_change => 0
    | .proceed => 0
  let newConflicts := detectConflicts C simulatedTrains stations []
  { totalDelayReduction := totalDelayReduction
    affectedTrains := [targetTrain.id]
    newConflicts := newConflicts
    feasible := decide (0 < totalDelayReduction) && newConflicts.isEmpty }

/-- The `simulatedTrains.find(t => t.id === rec.targetTrain)` step, returning
the located reference in the clone. -/
def simFindTarget (rec : AIRecommendation) (h1 : TrainHeap)
    (crefs : List Nat) : Option Nat :=
  crefs.find? (fun r =>
    match heapLookup h1 r with
    | some t => t.id == rec.targetTrain
    | none => false)

/-- Model of `simulateRecommendation` on the explicit store: clone the caller's array,
find the target *in the clone*, mutate through that reference, and re-detect
conflicts on the clone.  Returns the result together with the final store. -/
def simulateRecommendationH (C : OptimizationConstraints)
    (rec : AIRecommendation) (refs : List Nat) (h : TrainHeap)
    (stations : List Station) : SimResult × TrainHeap :=
  match cloneRefs h refs with
  | (crefs, h1) =>
    match simFindTarget rec h1 crefs with
    | none =>
      ({ totalDelayReduction := 0
         affectedTrains := []
         newConflicts := []
         feasible := false }, h1)
    | some tref =>
      match heapLookup h1 tref with
      | none =>
        ({ totalDelayReduction := 0
           affectedTrains := []
           newConflicts := []
           feasible := false }, h1)
      | some targetTrain =>
        (simResultH C rec crefs refs (simApplyH C rec h1 tref targetTrain)
           targetTrain stations,
         simApplyH C rec h1 tref targetTrain)

/-! ## Concrete sample data for witnesses and counterexamples -/

def wTrainA : Train :=
  { id := "A", number := "100", name := "Alpha", type := .express, priority := 5,
    currentStation := none, nextStation := some "S", status := .on_time,
    delay := 0, speed := 60, coordinates := ⟨0, 0⟩ }

def wTrainB : Train :=
  { id := "B", number := "200", name := "Beta", type := .freight, priority := 3,
    currentStation := none, nextStation := some "S", status := .on_time,
    delay := 0.5, speed := 60, coordinates := ⟨0, 0⟩ }

/-- A train whose `currentStation` equals its `nextStation`. -/
def wTrainC1 : Train :=
  { id := "T1", number := "101", name := "Gamma", type := .express, priority := 5,
    currentStation := some "STN001", nextStation := some "STN001",
    status := .on_time, delay := 0, speed := 60, coordinates := ⟨0, 0⟩ }

def wHoldRec : AIRecommendation :=
  { id := "r1", conflictId := "c1", type := .hold, targetTrain := "A",
    action := "Hold Alpha (100) for 5 minutes", reasoning := "hold A",
    confidence := 0.85,
    estimatedImpact := { delayReduction := 3, affectedTrains := ["A"] } }

/-- A hold recommendation whose target train id occurs in no sample list. -/
def wHoldRecZ : AIRecommendation :=
  { id := "r2", conflictId := "c1", type := .hold, targetTrain := "Z",
    action := "Hold Zeta (999) for 4 minutes", reasoning := "hold Z",
    confidence := 0.85,
    estimatedImpact := { delayReduction := 3, affectedTrains := ["Z"] } }

def wHeap : TrainHeap := { cells := [(0, wTrainA)], next := 1 }

def wConflictCrit : Conflict :=
  { id := "cc", type := .crossing, trains := ["x", "y"], location := "S",
    severity := .critical, estimatedDelay := 5 }

def wConflictLow : Conflict :=
  { id := "cl", type := .platform, trains := ["u", "v"], location := "T",
    severity := .low, estimatedDelay := 30 }

def wConflictHigh : Conflict :=
  { id := "ca", type := .crossing, trains := ["x", "y"], location := "S",
    severity := .high, estimatedDelay := 10 }

def wConflictMed : Conflict :=
  { id := "cb", type := .platform, trains := ["u", "v"], location := "T",
    severity := .medium, estimatedDelay := 16 }

/-- The conflict used by the C6 witness: both sample trains are involved. -/
def wConflictAB : Conflict :=
  { id := "c1", type := .crossing, trains := ["A", "B"], location := "S",
    severity := .critical, estimatedDelay := 2 }

/-! ## Bucket-map lemmas for the conflict detector -/

def bucketOf (m : List (String × List Train)) (s : String) : List Train :=
  match m.find? (fun p => p.1 == s) with
  | some p => p.2
  | none => []

/-- Rank of a severity in the data model's order low < medium < high < critical. -/
def sevRank : Severity → Nat
  | .low => 0
  | .medium => 1
  | .high => 2
  | .critical => 3

/-! ## Theorems -/
theorem sortDescBy_perm {α : Type} (key : α → Rat) (l : List α) :
    List.Perm (sortDescBy key l) l :=
  List.perm_insertionSort _ l

theorem mem_sortDescBy {α : Type} (key : α → Rat) (l : List α) (a : α) :
    a ∈ sortDescBy key l ↔ a ∈ l :=
  (sortDescBy_perm key l).mem_iff

theorem length_sortDescBy {α : Type} (key : α → Rat) (l : List α) :
    (sortDescBy key l).length = l.length :=
  (sortDescBy_perm key l).length_eq

theorem sortDescBy_pairwise {α : Type} (key : α → Rat) (l : List α) :
    (sortDescBy key l).Pairwise (fun a b => key b ≤ key a) := by
  haveI : IsTotal α (fun a b => key b ≤ key a) :=
    ⟨fun a b => le_total (key b) (key a)⟩
  haveI : IsTrans α (fun a b => key b ≤ key a) :=
    ⟨fun _ _ _ h1 h2 => le_trans h2 h1⟩
  exact List.sorted_insertionSort _ l

theorem sortDescBy_pair {α : Type} (key : α → Rat) (a b : α) (h : key b ≤ key a) :
    sortDescBy key [a, b] = [a, b] := by
  simp [sortDescBy, List.insertionSort, List.orderedInsert, h]

theorem sortDescBy_pair_swap {α : Type} (key : α → Rat) (a b : α)
    (h : key a < key b) : sortDescBy key [a, b] = [b, a] := by
  have hn : ¬ key b ≤ key a := not_le.mpr h
  simp [sortDescBy, List.insertionSort, List.orderedInsert, hn]

/-! ## Frame lemmas for the explicit-store simulator -/

theorem heapLookup_alloc_lt (h : TrainHeap) (t : Train) (r : Nat)
    (hr : r < h.next) : heapLookup (heapAlloc h t).2 r = heapLookup h r := by
  unfold heapLookup heapAlloc
  simp only [List.find?_append]
  cases hf : h.cells.find? (fun p => p.1 == r) with
  | some p => simp [hf]
  | none =>
    have : (h.next == r) = false := by
      simp only [beq_eq_false_iff_ne, ne_eq]
      omega
    simp [hf, List.find?, this]

theorem heapAlloc_next (h : TrainHeap) (t : Train) :
    (heapAlloc h t).2.next = h.next + 1 := rfl

theorem cloneRefs_next_le (rs : List Nat) (h : TrainHeap) :
    h.next ≤ (cloneRefs h rs).2.next := by
  induction rs generalizing h with
  | nil => simp [cloneRefs]
  | cons r rs ih =>
    unfold cloneRefs
    cases hl : heapLookup h r with
    | some t =>
      simp only []
      have h1 := ih (heapAlloc h t).2
      have h2 : (heapAlloc h t).2.next = h.next + 1 := rfl
      omega
    | none => exact ih h

theorem cloneRefs_lookup_lt (rs : List Nat) (h : TrainHeap) (r : Nat)
    (hr : r < h.next) : heapLookup (cloneRefs h rs).2 r = heapLookup h r := by
  induction rs generalizing h with
  | nil => rfl
  | cons x xs ih =>
    unfold cloneRefs
    cases hl : heapLookup h x with
    | some t =>
      simp only []
      have h2 : (heapAlloc h t).2.next = h.next + 1 := rfl
      have := ih (heapAlloc h t).2 (by omega)
      rw [this, heapLookup_alloc_lt h t r hr]
    | none => exact ih h hr

theorem cloneRefs_refs_ge (rs : List Nat) (h : TrainHeap) (r' : Nat)
    (hmem : r' ∈ (cloneRefs h rs).1) : h.next ≤ r' := by
  induction rs generalizing h with
  | nil => simp [cloneRefs] at hmem
  | cons x xs ih =>
    unfold cloneRefs at hmem
    cases hl : heapLookup h x with
    | some t =>
      rw [hl] at hmem
      simp only [List.mem_cons] at hmem
      rcases hmem with rfl | hmem
      · exact Nat.le_refl _
      · have := ih (heapAlloc h t).2 hmem
        have h2 : (heapAlloc h t).2.next = h.next + 1 := rfl
        omega
    | none =>
      rw [hl] at hmem
      exact ih h hmem

theorem find?_set_ne (cells : List (Nat × Train)) (k r : Nat) (t : Train)
    (hne : r ≠ k) :
    (cells.map (fun p => if p.1 = k then (p.1, t) else p)).find?
        (fun p => p.1 == r) =
      cells.find? (fun p => p.1 == r) := by
  induction cells with
  | nil => rfl
  | cons c cs ih =>
    simp only [List.map_cons, List.find?_cons]
    by_cases hk : c.1 = k
    · have hcr : (c.1 == r) = false := by
        rw [beq_eq_false_iff_ne]
        omega
      rw [if_pos hk]
      simp only [hcr]
      exact ih
    · rw [if_neg hk]
      cases hcr : (c.1 == r) with
      | true => simp only [hcr]
      | false =>
        simp only [hcr]
        exact ih

theorem heapLookup_set_ne (h : TrainHeap) (k r : Nat) (t : Train)
    (hne : r ≠ k) : heapLookup (heapSet h k t) r = heapLookup h r := by
  unfold heapLookup heapSet
  rw [find?_set_ne h.cells k r t hne]

/-- No cell the caller can reach is written by the simulator: every reference
allocated before the call still holds the identical train afterwards. -/
theorem simulateRecommendationH_frame (C : OptimizationConstraints)
    (rec : AIRecommendation) (refs : List Nat) (h : TrainHeap)
    (stations : List Station) (r : Nat) (hr : r < h.next) :
    heapLookup (simulateRecommendationH C rec refs h stations).2 r =
      heapLookup h r := by
  have hlk : heapLookup (cloneRefs h refs).2 r = heapLookup h r :=
    cloneRefs_lookup_lt refs h r hr
  have hge : ∀ r' ∈ (cloneRefs h refs).1, h.next ≤ r' :=
    fun r' hm => cloneRefs_refs_ge refs h r' hm
  show heapLookup
      (match simFindTarget rec (cloneRefs h refs).2 (cloneRefs h refs).1 with
        | none =>
          (({ totalDelayReduction := 0, affectedTrains := [], newConflicts := [],
              feasible := false } : SimResult), (cloneRefs h refs).2)
        | some tref =>
          match heapLookup (cloneRefs h refs).2 tref with
          | none =>
            (({ totalDelayReduction := 0, affectedTrains := [], newConflicts := [],
                feasible := false } : SimResult), (cloneRefs h refs).2)
          | some targetTrain =>
            (simResultH C rec (cloneRefs h refs).1 refs
               (simApplyH C rec (cloneRefs h refs).2 tref targetTrain)
               targetTrain stations,
             simApplyH C rec (cloneRefs h refs).2 tref targetTrain)).2 r =
      heapLookup h r
  cases hf : simFindTarget rec (cloneRefs h refs).2 (cloneRefs h refs).1 with
  | none => exact hlk
  | some tref =>
    have htref : h.next ≤ tref :=
      hge tref (List.mem_of_find?_eq_some hf)
    have hrne : r ≠ tref := by omega
    show heapLookup
        (match heapLookup (cloneRefs h refs).2 tref with
          | none =>
            (({ totalDelayReduction := 0, affectedTrains := [], newConflicts := [],
                feasible := false } : SimResult), (cloneRefs h refs).2)
          | some targetTrain =>
            (simResultH C rec (cloneRefs h refs).1 refs
               (simApplyH C rec (cloneRefs h refs).2 tref targetTrain)
               targetTrain stations,
             simApplyH C rec (cloneRefs h refs).2 tref targetTrain)).2 r =
        heapLookup h r
    cases hl : heapLookup (cloneRefs h refs).2 tref with
    | none => exact hlk
    | some target =>
      show heapLookup (simApplyH C rec (cloneRefs h refs).2 tref target) r =
        heapLookup h r
      unfold simApplyH
      cases rec.type
      · rw [heapLookup_set_ne _ _ _ _ hrne]
        exact hlk
      · exact hlk
      · rw [heapLookup_set_ne _ _ _ _ hrne]
        exact hlk
      · rw [heapLookup_set_ne _ _ _ _ hrne]
        exact hlk

/-! ## Arithmetic lemmas about the simulator -/

theorem sumDelay_aux (l : List Train) (a : Rat) :
    l.foldl (fun sum t => sum + t.delay) a = a + sumDelay l := by
  induction l generalizing a with
  | nil => simp [sumDelay]
  | cons t ts ih =>
    simp only [sumDelay, List.foldl_cons]
    rw [ih (a + t.delay), ih (0 + t.delay)]
    ring

theorem sumDelay_cons (t : Train) (ts : List Train) :
    sumDelay (t :: ts) = t.delay + sumDelay ts := by
  show List.foldl (fun sum t => sum + t.delay) 0 (t :: ts) = t.delay + sumDelay ts
  rw [List.foldl_cons, sumDelay_aux]
  ring

theorem updateFirst_of_none {α : Type} (p : α → Bool) (f : α → α) (l : List α)
    (hnone : ∀ x ∈ l, p x = false) : updateFirst p f l = l := by
  induction l with
  | nil => rfl
  | cons x xs ih =>
    have hx : p x = false := hnone x (List.mem_cons_self x xs)
    simp only [updateFirst, hx, Bool.false_eq_true, if_false]
    rw [ih (fun y hy => hnone y (List.mem_cons_of_mem x hy))]

theorem sumDelay_updateFirst_add (p : Train → Bool) (d : Rat) (l : List Train)
    (hex : l.any p = true) :
    sumDelay (updateFirst p (fun t => { t with delay := t.delay + d }) l) =
      sumDelay l + d := by
  induction l with
  | nil => simp at hex
  | cons t ts ih =>
    by_cases hp : p t = true
    · simp only [updateFirst, hp, if_true, sumDelay_cons]
      ring
    · have hp' : p t = false := by
        cases h : p t
        · rfl
        · exact absurd h hp
      have hex' : ts.any p = true := by
        simpa [List.any_cons, hp'] using hex
      simp only [updateFirst, hp', Bool.false_eq_true, if_false, sumDelay_cons,
        ih hex']
      ring

theorem sumDelay_holdSimTrains (rec : AIRecommendation) (trains : List Train)
    (hany : trains.any (fun t => t.id == rec.targetTrain) = true) :
    sumDelay (holdSimTrains rec trains) =
      sumDelay trains + (extractDelayFromAction rec.action : Rat) :=
  sumDelay_updateFirst_add _ _ _ hany

theorem holdSimTrains_of_absent (rec : AIRecommendation) (trains : List Train)
    (habs : trains.find? (fun t => t.id == rec.targetTrain) = none) :
    holdSimTrains rec trains = trains := by
  apply updateFirst_of_none
  intro x hx
  have hnp := List.find?_eq_none.mp habs x hx
  cases h : (x.id == rec.targetTrain)
  · rfl
  · exact absurd h hnp

/-- The simulator's reported delay reduction for a `hold` recommendation is the
*clamped* difference of delay sums. -/
theorem simulateRecommendation_hold_tdr (C : OptimizationConstraints)
    (rec : AIRecommendation) (trains : List Train) (stations : List Station)
    (htype : rec.type = .hold) :
    (simulateRecommendation C rec trains stations).totalDelayReduction =
      max 0 (sumDelay trains - sumDelay (holdSimTrains rec trains)) := by
  cases hf : trains.find? (fun t => t.id == rec.targetTrain) with
  | none =>
    rw [holdSimTrains_of_absent rec trains hf]
    simp [simulateRecommendation, hf]
  | some target =>
    simp [simulateRecommendation, hf, htype, calculateDelayReduction]

/-- A `hold` recommendation can only add delay, so its simulated reduction is
zero and it is never feasible. -/
theorem simulateRecommendation_hold_infeasible (C : OptimizationConstraints)
    (rec : AIRecommendation) (trains : List Train) (stations : List Station)
    (htype : rec.type = .hold) :
    (simulateRecommendation C rec trains stations).totalDelayReduction = 0 ∧
      (simulateRecommendation C rec trains stations).feasible = false := by
  cases hf : trains.find? (fun t => t.id == rec.targetTrain) with
  | none => simp [simulateRecommendation, hf]
  | some target =>
    have hp := List.find?_some hf
    have hany : trains.any (fun t => t.id == rec.targetTrain) = true :=
      List.any_eq_true.mpr ⟨target, List.mem_of_find?_eq_some hf, hp⟩
    have hd : sumDelay trains - sumDelay (holdSimTrains rec trains) ≤ 0 := by
      rw [sumDelay_holdSimTrains rec trains hany]
      have : (0 : Rat) ≤ (extractDelayFromAction rec.action : Rat) :=
        Nat.cast_nonneg _
      linarith
    have htdr0 : calculateDelayReduction (holdSimTrains rec trains) trains = 0 := by
      unfold calculateDelayReduction
      exact max_eq_left hd
    simp [simulateRecommendation, hf, htype, htdr0]

/-! ## Structure of the generated recommendation list -/

theorem reroute_confidence (c : Conflict) (t : Train) (y : AIRecommendation)
    (h : generateRerouteRecommendation c t = some y) : y.confidence = 0.72 := by
  unfold generateRerouteRecommendation at h
  split at h
  · injection h with h
    subst h
    rfl
  · cases h

theorem mem_holdReroute_char (C : OptimizationConstraints)
    (O : ConflictResolutionOptions) (c : Conflict) (high low : Train)
    (x : AIRecommendation)
    (hx : x ∈ (if O.allowRerouting then
        [generateHoldRecommendation C c low high] ++
          (generateRerouteRecommendation c low).toList
      else [generateHoldRecommendation C c low high])) :
    x = generateHoldRecommendation C c low high ∨ x.confidence = 0.72 := by
  split at hx
  · rcases List.mem_append.mp hx with hx1 | hx2
    · exact Or.inl (List.mem_singleton.mp hx1)
    · right
      have hsome := Option.mem_toList.mp hx2
      exact reroute_confidence c low x hsome
  · exact Or.inl (List.mem_singleton.mp hx)

theorem hold_mem_candidateRecs (C : OptimizationConstraints)
    (O : ConflictResolutionOptions) (c : Conflict) (high low : Train) :
    generateHoldRecommendation C c low high ∈ candidateRecs C O c high low := by
  simp only [candidateRecs]
  split
  · apply List.mem_append_left
    split
    · exact List.mem_append_left _ (List.mem_singleton.mpr rfl)
    · exact List.mem_singleton.mpr rfl
  · split
    · exact List.mem_append_left _ (List.mem_singleton.mpr rfl)
    · exact List.mem_singleton.mpr rfl

theorem mem_candidateRecs_char (C : OptimizationConstraints)
    (O : ConflictResolutionOptions) (c : Conflict) (high low : Train)
    (x : AIRecommendation) (hx : x ∈ candidateRecs C O c high low) :
    x = generateHoldRecommendation C c low high ∨
      x.confidence = 0.72 ∨ x.confidence = 0.65 := by
  simp only [candidateRecs] at hx
  split at hx
  · rcases List.mem_append.mp hx with hx1 | hx2
    · rcases mem_holdReroute_char C O c high low x hx1 with h | h
      · exact Or.inl h
      · exact Or.inr (Or.inl h)
    · right
      right
      have hxp := List.mem_singleton.mp hx2
      rw [hxp]
      rfl
  · rcases mem_holdReroute_char C O c high low x hx with h | h
    · exact Or.inl h
    · exact Or.inr (Or.inl h)

/-- When at least two trains resolve, `generateRecommendations` is the sorted
candidate list for the top two weighted-priority trains. -/
theorem generateRecommendations_eq_of_sorted (C : OptimizationConstraints)
    (O : ConflictResolutionOptions) (c : Conflict) (ts : List Train)
    (a b : Train) (tl : List Train)
    (hlen : ¬ (ts.filter (fun t => decide (t.id ∈ c.trains))).length < 2)
    (hsorted : sortDescBy (weightedPriority C)
        (ts.filter (fun t => decide (t.id ∈ c.trains))) = a :: b :: tl) :
    generateRecommendations C O c ts =
      sortDescBy AIRecommendation.confidence (candidateRecs C O c a b) := by
  unfold generateRecommendations
  rw [if_neg hlen, hsorted]

/-- The head of the generated list is always the hold recommendation: its
confidence 0.85 strictly dominates 0.72 (reroute) and 0.65 (priority change),
and the sort is descending by confidence. -/
theorem genRecs_head_hold (C : OptimizationConstraints)
    (O : ConflictResolutionOptions) (c : Conflict) (ts : List Train)
    (r : AIRecommendation) (rest : List AIRecommendation)
    (heq : generateRecommendations C O c ts = r :: rest) :
    r.type = .hold ∧ ∃ t ∈ ts, t.id = r.targetTrain := by
  by_cases hlen : (ts.filter (fun t => decide (t.id ∈ c.trains))).length < 2
  · rw [generateRecommendations, if_pos hlen] at heq
    cases heq
  · have hlen2 : 2 ≤ (sortDescBy (weightedPriority C)
        (ts.filter (fun t => decide (t.id ∈ c.trains)))).length := by
      rw [length_sortDescBy]
      omega
    obtain ⟨a, b, tl, hsorted⟩ : ∃ a b tl,
        sortDescBy (weightedPriority C)
          (ts.filter (fun t => decide (t.id ∈ c.trains))) = a :: b :: tl := by
      rcases hs : sortDescBy (weightedPriority C)
          (ts.filter (fun t => decide (t.id ∈ c.trains))) with _ | ⟨x, _ | ⟨y, ys⟩⟩
      · rw [hs] at hlen2
        simp at hlen2
      · rw [hs] at hlen2
        simp at hlen2
      · exact ⟨x, y, ys, rfl⟩
    rw [generateRecommendations_eq_of_sorted C O c ts a b tl hlen hsorted] at heq
    have hb_ts : b ∈ ts := by
      have hb1 : b ∈ sortDescBy (weightedPriority C)
          (ts.filter (fun t => decide (t.id ∈ c.trains))) := by
        rw [hsorted]
        exact List.mem_cons_of_mem _ (List.mem_cons_self _ _)
      have hb2 := (mem_sortDescBy _ _ _).mp hb1
      exact List.mem_of_mem_filter hb2
    have hr_mem : r ∈ candidateRecs C O c a b := by
      have : r ∈ sortDescBy AIRecommendation.confidence (candidateRecs C O c a b) := by
        rw [heq]
        exact List.mem_cons_self _ _
      exact (mem_sortDescBy _ _ _).mp this
    have hhold_mem : generateHoldRecommendation C c b a ∈
        sortDescBy AIRecommendation.confidence (candidateRecs C O c a b) :=
      (mem_sortDescBy _ _ _).mpr (hold_mem_candidateRecs C O c a b)
    rw [heq] at hhold_mem
    have hpair := sortDescBy_pairwise AIRecommendation.confidence
      (candidateRecs C O c a b)
    rw [heq] at hpair
    have hhead : ∀ x ∈ rest, x.confidence ≤ r.confidence :=
      fun x hx => (List.pairwise_cons.mp hpair).1 x hx
    have hr_is_hold : r = generateHoldRecommendation C c b a := by
      rcases List.mem_cons.mp hhold_mem with hcase | hcase
      · exact hcase.symm
      · have h85 : (0.85 : Rat) ≤ r.confidence := hhead _ hcase
        rcases mem_candidateRecs_char C O c a b r hr_mem with h | h | h
        · exact h
        · rw [h] at h85
          norm_num at h85
        · rw [h] at h85
          norm_num at h85
    refine ⟨?_, ⟨b, hb_ts, ?_⟩⟩
    · rw [hr_is_hold]
      rfl
    · rw [hr_is_hold]
      rfl

/-! ## The batch optimizer never applies anything -/

theorem optimizeStep_id (C : OptimizationConstraints)
    (O : ConflictResolutionOptions) (stations : List Station)
    (acc : List Train × List String × Rat) (conflict : Conflict) :
    optimizeStep C O stations acc conflict = acc := by
  unfold optimizeStep
  cases hrecs : generateRecommendations C O conflict acc.1 with
  | nil => rfl
  | cons best rest =>
    have hhold := (genRecs_head_hold C O conflict acc.1 best rest hrecs).1
    have hinf := simulateRecommendation_hold_infeasible C best acc.1 stations hhold
    simp [hinf.2]

theorem foldl_optimizeStep_id (C : OptimizationConstraints)
    (O : ConflictResolutionOptions) (stations : List Station)
    (l : List Conflict) (acc : List Train × List String × Rat) :
    l.foldl (optimizeStep C O stations) acc = acc := by
  induction l generalizing acc with
  | nil => rfl
  | cons c cs ih => rw [List.foldl_cons, optimizeStep_id, ih]

/-! ## Claim theorems -/

/-- C1: the spec claims detectConflicts never pairs a train with itself.  The
code violates this: a train whose `currentStation` equals its `nextStation` is
pushed twice into the same station bucket, and the pair loop then pairs the
train with itself, emitting a self-crossing and a self-platform conflict.
This theorem evaluates the detector at the failing input. -/
theorem claim_C1_self_conflict_eval :
    (detectConflicts defaultConstraints [wTrainC1] [] []).map
        (fun c => (c.type, c.trains, c.severity)) =
      [(.crossing, ["T1", "T1"], .critical),
       (.platform, ["T1", "T1"], .medium)] := by
  decide

/-- C2: for every hold-type recommendation whose target train is present and
whose action parses to a positive hold duration, the simulator reports zero
delay reduction (the clamp hides the added delay) and is therefore
infeasible. -/
theorem claim_C2_hold_infeasible (C : OptimizationConstraints)
    (rec : AIRecommendation) (trains : List Train) (stations : List Station)
    (htype : rec.type = .hold)
    (hpresent : ∃ t ∈ trains, t.id = rec.targetTrain)
    (hpos : 0 < extractDelayFromAction rec.action) :
    (simulateRecommendation C rec trains stations).totalDelayReduction = 0 ∧
      (simulateRecommendation C rec trains stations).feasible = false :=
  simulateRecommendation_hold_infeasible C rec trains stations htype

theorem claim_C2_hold_infeasible_witness :
    (wHoldRec.type = RecType.hold ∧
      (∃ t ∈ [wTrainA], t.id = wHoldRec.targetTrain) ∧
      0 < extractDelayFromAction wHoldRec.action) ∧
    ((simulateRecommendation defaultConstraints wHoldRec [wTrainA]
        []).totalDelayReduction = 0 ∧
      (simulateRecommendation defaultConstraints wHoldRec [wTrainA]
        []).feasible = false) :=
  ⟨by decide,
   claim_C2_hold_infeasible defaultConstraints wHoldRec [wTrainA] []
     (by decide) (by decide) (by decide)⟩

/-- C3: `optimizeSchedule` is a no-op on every input: the top-ranked
recommendation is always the hold recommendation (confidence 0.85 strictly
dominates), whose simulation is never feasible, so no resolution is ever
applied: no resolved conflicts, zero total delay reduction, and the working
train set keeps every delay and priority unchanged. -/
theorem claim_C3_optimizeSchedule_noop (C : OptimizationConstraints)
    (O : ConflictResolutionOptions) (trains : List Train)
    (conflicts : List Conflict) (stations : List Station) :
    (optimizeSchedule C O trains conflicts stations).resolvedConflicts = [] ∧
      (optimizeSchedule C O trains conflicts stations).totalDelayReduction = 0 ∧
      (optimizeSchedule C O trains conflicts
          stations).optimizedTrains.map Train.delay = trains.map Train.delay ∧
      (optimizeSchedule C O trains conflicts
          stations).optimizedTrains.map Train.priority =
        trains.map Train.priority := by
  simp [optimizeSchedule, foldl_optimizeStep_id]

/-- C4 counterexample: the claim says the reported delay reduction is the true
(possibly negative) net effect `sum(original) - sum(simulated)`.  At this
concrete input the true net effect is -5 but the simulator reports 0 (the
source clamps with `Math.max(0, ...)`). -/
theorem claim_C4_counterexample :
    (simulateRecommendation defaultConstraints wHoldRec [wTrainA]
        []).totalDelayReduction ≠
      sumDelay [wTrainA] - sumDelay (holdSimTrains wHoldRec [wTrainA]) ∧
    (simulateRecommendation defaultConstraints wHoldRec [wTrainA]
        []).totalDelayReduction = 0 ∧
    sumDelay [wTrainA] - sumDelay (holdSimTrains wHoldRec [wTrainA]) = -5 := by
  decide

/-- C4 (amended): for every hold-type recommendation whose target train is
present, the simulator reports `max(0, sum(original delays) - sum(post-hold
delays))`: the net effect clamped at zero, never a negative value. -/
theorem claim_C4_amended_clamped (C : OptimizationConstraints)
    (rec : AIRecommendation) (trains : List Train) (stations : List Station)
    (htype : rec.type = .hold)
    (hpresent : ∃ t ∈ trains, t.id = rec.targetTrain) :
    (simulateRecommendation C rec trains stations).totalDelayReduction =
      max 0 (sumDelay trains - sumDelay (holdSimTrains rec trains)) :=
  simulateRecommendation_hold_tdr C rec trains stations htype

theorem claim_C4_amended_clamped_witness :
    (wHoldRec.type = RecType.hold ∧
      (∃ t ∈ [wTrainA], t.id = wHoldRec.targetTrain)) ∧
    (simulateRecommendation defaultConstraints wHoldRec [wTrainA]
        []).totalDelayReduction =
      max 0 (sumDelay [wTrainA] - sumDelay (holdSimTrains wHoldRec [wTrainA])) :=
  ⟨by decide,
   claim_C4_amended_clamped defaultConstraints wHoldRec [wTrainA] []
     (by decide) (by decide)⟩

/-- C5 counterexample: the claim says `resolveMultipleConflicts` orders
conflicts by `severityWeight × estimatedDelay` with weights critical=4,
high=3, medium=2, low=1.  At this input the medium conflict has the strictly
greater weight under those weights (32 > 30), yet the resolver (whose own
weights are critical=10, high=7, medium=4, low=1, giving 70 > 64) processes
the high conflict first, disagreeing with `optimizeSchedule`. -/
theorem claim_C5_counterexample :
    engineConflictKey wConflictHigh < engineConflictKey wConflictMed ∧
    prioritizeConflicts [wConflictHigh, wConflictMed] =
      [wConflictHigh, wConflictMed] ∧
    sortConflictsEngine [wConflictHigh, wConflictMed] =
      [wConflictMed, wConflictHigh] := by
  decide

/-- C5 (amended): `resolveMultipleConflicts` processes conflicts in descending
order of `calculateConflictPriority`, i.e. `severityWeight × estimatedDelay`
with its own weights critical=10, high=7, medium=4, low=1; this can disagree
with `optimizeSchedule`'s 4/3/2/1 ordering. -/
theorem claim_C5_amended_resolver_order :
    (∀ conflicts : List Conflict,
      (prioritizeConflicts conflicts).Pairwise
        (fun a b => calculateConflictPriority b ≤ calculateConflictPriority a)) ∧
    (∀ conflicts : List Conflict,
      List.Perm (prioritizeConflicts conflicts) conflicts) :=
  ⟨fun l => sortDescBy_pairwise _ l, fun l => sortDescBy_perm _ l⟩

/-- C8: `optimizeSchedule` processes conflicts in descending order of
`severityWeight(severity) × estimatedDelay` with weights critical=4, high=3,
medium=2, low=1; in particular a low-severity conflict with 30 minutes of
estimated delay (weight 30) is processed before a critical one with 5 minutes
(weight 20). -/
theorem claim_C8_conflict_order :
    (∀ conflicts : List Conflict,
      (sortConflictsEngine conflicts).Pairwise
        (fun a b => engineConflictKey b ≤ engineConflictKey a)) ∧
    (∀ conflicts : List Conflict,
      List.Perm (sortConflictsEngine conflicts) conflicts) ∧
    sortConflictsEngine [wConflictCrit, wConflictLow] =
      [wConflictLow, wConflictCrit] := by
  refine ⟨fun l => sortDescBy_pairwise _ l, fun l => sortDescBy_perm _ l, ?_⟩
  decide

/-- C9: the simulator never mutates the caller's train list.  In the
explicit-store model, every reference allocated before the call (in particular
every train of the caller's array) still holds the identical train record,
with every field unchanged, after `simulateRecommendationH` returns: all
mutations land on the freshly allocated deep clone. -/
theorem claim_C9_no_caller_mutation (C : OptimizationConstraints)
    (rec : AIRecommendation) (refs : List Nat) (h : TrainHeap)
    (stations : List Station) (r : Nat) (hr : r < h.next) :
    heapLookup (simulateRecommendationH C rec refs h stations).2 r =
      heapLookup h r :=
  simulateRecommendationH_frame C rec refs h stations r hr

theorem claim_C9_no_caller_mutation_witness :
    0 < wHeap.next ∧
    heapLookup (simulateRecommendationH defaultConstraints wHoldRec [0] wHeap
        []).2 0 = heapLookup wHeap 0 :=
  ⟨by decide,
   claim_C9_no_caller_mutation defaultConstraints wHoldRec [0] wHeap [] 0
     (by decide)⟩

/-- C10: when the target train id occurs nowhere in the input list, the
simulator returns exactly the zero/empty sentinel
`{totalDelayReduction := 0, affectedTrains := [], newConflicts := [],
feasible := false}` without raising, and the caller's trains are unchanged
(explicit-store model). -/
theorem claim_C10_missing_target (C : OptimizationConstraints)
    (rec : AIRecommendation) (trains : List Train) (stations : List Station)
    (refs : List Nat) (h : TrainHeap)
    (habsent : ∀ t ∈ trains, t.id ≠ rec.targetTrain) :
    simulateRecommendation C rec trains stations =
      { totalDelayReduction := 0, affectedTrains := [], newConflicts := [],
        feasible := false } ∧
    ∀ r < h.next,
      heapLookup (simulateRecommendationH C rec refs h stations).2 r =
        heapLookup h r := by
  constructor
  · have hf : trains.find? (fun t => t.id == rec.targetTrain) = none := by
      apply List.find?_eq_none.mpr
      intro x hx
      simp [habsent x hx]
    simp [simulateRecommendation, hf]
  · intro r hr
    exact simulateRecommendationH_frame C rec refs h stations r hr

theorem claim_C10_missing_target_witness :
    (∀ t ∈ [wTrainA], t.id ≠ wHoldRecZ.targetTrain) ∧
    (simulateRecommendation defaultConstraints wHoldRecZ [wTrainA] [] =
      { totalDelayReduction := 0, affectedTrains := [], newConflicts := [],
        feasible := false } ∧
    ∀ r < wHeap.next,
      heapLookup (simulateRecommendationH defaultConstraints wHoldRecZ [0]
          wHeap []).2 r = heapLookup wHeap r) :=
  ⟨by decide,
   claim_C10_missing_target defaultConstraints wHoldRecZ [wTrainA] [] [0]
     wHeap (by decide)⟩

/-- C6: (empty case) fewer than 2 resolvable trains yield no recommendations;
(general case) with at least 2 resolvable trains a hold recommendation with
confidence 0.85 is always present; (two-train case) when exactly the trains
`a`, `b` resolve and `b` has the strictly lower weighted priority, the list
contains a hold recommendation targeting `b` with confidence 0.85 and hold
duration `max(3, conflict.estimatedDelay + safetyBuffer)` embedded in its
action text. -/
theorem claim_C6_hold_recommendation (C : OptimizationConstraints)
    (O : ConflictResolutionOptions) (c : Conflict) :
    (∀ ts : List Train,
      (ts.filter (fun t => decide (t.id ∈ c.trains))).length < 2 →
      generateRecommendations C O c ts = []) ∧
    (∀ ts : List Train,
      2 ≤ (ts.filter (fun t => decide (t.id ∈ c.trains))).length →
      ∃ r ∈ generateRecommendations C O c ts,
        r.type = .hold ∧ r.confidence = 0.85) ∧
    (∀ ts : List Train, ∀ hi lo : Train,
      (ts.filter (fun t => decide (t.id ∈ c.trains)) = [hi, lo] ∨
        ts.filter (fun t => decide (t.id ∈ c.trains)) = [lo, hi]) →
      weightedPriority C lo < weightedPriority C hi →
      ∃ r ∈ generateRecommendations C O c ts,
        r.type = .hold ∧ r.targetTrain = lo.id ∧ r.confidence = 0.85 ∧
        r.action = "Hold " ++ lo.name ++ " (" ++ lo.number ++ ") for " ++
          ratToString (max 3 (c.estimatedDelay + C.safetyBuffer)) ++
          " minutes") := by
  refine ⟨?_, ?_, ?_⟩
  · intro ts hlen
    simp only [generateRecommendations]
    rw [if_pos hlen]
  · intro ts hlen
    have hnlt : ¬ (ts.filter (fun t => decide (t.id ∈ c.trains))).length < 2 := by
      omega
    have hlen2 : 2 ≤ (sortDescBy (weightedPriority C)
        (ts.filter (fun t => decide (t.id ∈ c.trains)))).length := by
      rw [length_sortDescBy]
      omega
    obtain ⟨a, b, tl, hsorted⟩ : ∃ a b tl,
        sortDescBy (weightedPriority C)
          (ts.filter (fun t => decide (t.id ∈ c.trains))) = a :: b :: tl := by
      rcases hs : sortDescBy (weightedPriority C)
          (ts.filter (fun t => decide (t.id ∈ c.trains))) with _ | ⟨x, _ | ⟨y, ys⟩⟩
      · rw [hs] at hlen2
        simp at hlen2
      · rw [hs] at hlen2
        simp at hlen2
      · exact ⟨x, y, ys, rfl⟩
    rw [generateRecommendations_eq_of_sorted C O c ts a b tl hnlt hsorted]
    refine ⟨generateHoldRecommendation C c b a, ?_, rfl, rfl⟩
    exact (mem_sortDescBy _ _ _).mpr (hold_mem_candidateRecs C O c a b)
  · intro ts hi lo hfil hpr
    rcases hfil with hfil | hfil
    · have hnlt : ¬ (ts.filter (fun t => decide (t.id ∈ c.trains))).length < 2 := by
        rw [hfil]
        simp
      have hsorted : sortDescBy (weightedPriority C)
          (ts.filter (fun t => decide (t.id ∈ c.trains))) = hi :: lo :: [] := by
        rw [hfil]
        exact sortDescBy_pair (weightedPriority C) hi lo (le_of_lt hpr)
      rw [generateRecommendations_eq_of_sorted C O c ts hi lo [] hnlt hsorted]
      refine ⟨generateHoldRecommendation C c lo hi, ?_, rfl, rfl, rfl, rfl⟩
      exact (mem_sortDescBy _ _ _).mpr (hold_mem_candidateRecs C O c hi lo)
    · have hnlt : ¬ (ts.filter (fun t => decide (t.id ∈ c.trains))).length < 2 := by
        rw [hfil]
        simp
      have hsorted : sortDescBy (weightedPriority C)
          (ts.filter (fun t => decide (t.id ∈ c.trains))) = hi :: lo :: [] := by
        rw [hfil]
        exact sortDescBy_pair_swap (weightedPriority C) lo hi hpr
      rw [generateRecommendations_eq_of_sorted C O c ts hi lo [] hnlt hsorted]
      refine ⟨generateHoldRecommendation C c lo hi, ?_, rfl, rfl, rfl, rfl⟩
      exact (mem_sortDescBy _ _ _).mpr (hold_mem_candidateRecs C O c hi lo)

theorem claim_C6_hold_recommendation_witness :
    ([wTrainA, wTrainB].filter
        (fun t => decide (t.id ∈ wConflictAB.trains)) = [wTrainA, wTrainB] ∧
      [wTrainB, wTrainA].filter
        (fun t => decide (t.id ∈ wConflictAB.trains)) = [wTrainB, wTrainA] ∧
      weightedPriority defaultConstraints wTrainB <
        weightedPriority defaultConstraints wTrainA) ∧
    (∃ r ∈ generateRecommendations defaultConstraints defaultOptions
        wConflictAB [wTrainA, wTrainB],
      r.type = RecType.hold ∧ r.targetTrain = wTrainB.id ∧
        r.confidence = 0.85 ∧
        r.action = "Hold " ++ wTrainB.name ++ " (" ++ wTrainB.number ++
          ") for " ++
          ratToString (max 3 (wConflictAB.estimatedDelay +
            defaultConstraints.safetyBuffer)) ++ " minutes") ∧
    (∃ r ∈ generateRecommendations defaultConstraints defaultOptions
        wConflictAB [wTrainB, wTrainA],
      r.type = RecType.hold ∧ r.targetTrain = wTrainB.id ∧
        r.confidence = 0.85 ∧
        r.action = "Hold " ++ wTrainB.name ++ " (" ++ wTrainB.number ++
          ") for " ++
          ratToString (max 3 (wConflictAB.estimatedDelay +
            defaultConstraints.safetyBuffer)) ++ " minutes") :=
  ⟨by decide,
   (claim_C6_hold_recommendation defaultConstraints defaultOptions
       wConflictAB).2.2 [wTrainA, wTrainB] wTrainA wTrainB
     (Or.inl (by decide)) (by decide),
   (claim_C6_hold_recommendation defaultConstraints defaultOptions
       wConflictAB).2.2 [wTrainB, wTrainA] wTrainA wTrainB
     (Or.inr (by decide)) (by decide)⟩

theorem bucketOf_nil (s : String) : bucketOf [] s = [] := rfl

theorem bucketOf_cons_hit (p : String × List Train)
    (rest : List (String × List Train)) (s : String) (h : p.1 = s) :
    bucketOf (p :: rest) s = p.2 := by
  have hb : (p.1 == s) = true := beq_iff_eq.mpr h
  unfold bucketOf
  simp only [List.find?_cons, hb]

theorem bucketOf_cons_miss (p : String × List Train)
    (rest : List (String × List Train)) (s : String) (h : p.1 ≠ s) :
    bucketOf (p :: rest) s = bucketOf rest s := by
  have hb : (p.1 == s) = false := by
    rw [beq_eq_false_iff_ne]
    exact h
  unfold bucketOf
  simp only [List.find?_cons, hb]

theorem bucketOf_entry (m : List (String × List Train)) (s : String) (x : Train)
    (hx : x ∈ bucketOf m s) : ∃ p ∈ m, p.2 = bucketOf m s := by
  cases hf : m.find? (fun p => p.1 == s) with
  | none =>
    have hemp : bucketOf m s = [] := by
      unfold bucketOf
      rw [hf]
    rw [hemp] at hx
    cases hx
  | some p =>
    have heq : bucketOf m s = p.2 := by
      unfold bucketOf
      rw [hf]
    exact ⟨p, List.mem_of_find?_eq_some hf, heq.symm⟩

theorem bucketOf_addToBucket (m : List (String × List Train)) (k s : String)
    (t : Train) :
    bucketOf (addToBucket m k t) s =
      if s = k then bucketOf m s ++ [t] else bucketOf m s := by
  induction m with
  | nil =>
    by_cases hsk : s = k
    · subst hsk
      rw [if_pos rfl]
      show bucketOf [(s, [t])] s = bucketOf [] s ++ [t]
      rw [bucketOf_cons_hit (s, [t]) [] s rfl, bucketOf_nil]
      rfl
    · rw [if_neg hsk]
      show bucketOf [(k, [t])] s = bucketOf [] s
      rw [bucketOf_cons_miss (k, [t]) [] s (fun h => hsk h.symm)]
  | cons p rest ih =>
    show bucketOf (addToBucket (p :: rest) k t) s = _
    unfold addToBucket
    by_cases hpk : p.1 = k
    · rw [if_pos hpk]
      by_cases hsp : p.1 = s
      · have hsk : s = k := by rw [← hsp, hpk]
        rw [if_pos hsk, bucketOf_cons_hit (p.1, p.2 ++ [t]) rest s hsp,
          bucketOf_cons_hit p rest s hsp]
      · have hsk : s ≠ k := fun h => hsp (by rw [hpk, h])
        rw [if_neg hsk, bucketOf_cons_miss (p.1, p.2 ++ [t]) rest s hsp,
          bucketOf_cons_miss p rest s hsp]
    · rw [if_neg hpk]
      by_cases hsp : p.1 = s
      · by_cases hsk : s = k
        · exact absurd (by rw [hsp, hsk]) hpk
        · rw [if_neg hsk, bucketOf_cons_hit p (addToBucket rest k t) s hsp,
            bucketOf_cons_hit p rest s hsp]
      · rw [bucketOf_cons_miss p (addToBucket rest k t) s hsp,
          bucketOf_cons_miss p rest s hsp, ih]

theorem mem_bucketOf_addToBucket_mono (m : List (String × List Train))
    (k s : String) (t x : Train) (hx : x ∈ bucketOf m s) :
    x ∈ bucketOf (addToBucket m k t) s := by
  rw [bucketOf_addToBucket]
  split
  · exact List.mem_append_left _ hx
  · exact hx

theorem self_mem_bucketOf_addToBucket (m : List (String × List Train))
    (k : String) (t : Train) : t ∈ bucketOf (addToBucket m k t) k := by
  rw [bucketOf_addToBucket, if_pos rfl]
  exact List.mem_append_right _ (List.mem_singleton.mpr rfl)

theorem mem_bucketOf_addToBucket_inv (m : List (String × List Train))
    (k s : String) (t x : Train) (hx : x ∈ bucketOf (addToBucket m k t) s) :
    x ∈ bucketOf m s ∨ x = t := by
  rw [bucketOf_addToBucket] at hx
  split at hx
  · rcases List.mem_append.mp hx with h | h
    · exact Or.inl h
    · exact Or.inr (List.mem_singleton.mp h)
  · exact Or.inl hx

theorem mem_bucketOf_bucketStep_mono (m : List (String × List Train))
    (t x : Train) (s : String) (hx : x ∈ bucketOf m s) :
    x ∈ bucketOf (bucketStep m t) s := by
  cases hn : t.nextStation with
  | none =>
    cases hc : t.currentStation with
    | none =>
      simp only [bucketStep, hn, hc]
      exact hx
    | some s2 =>
      simp only [bucketStep, hn, hc]
      by_cases h2 : s2 ≠ ""
      · rw [if_pos h2]
        exact mem_bucketOf_addToBucket_mono m s2 s t x hx
      · rw [if_neg h2]
        exact hx
  | some s1 =>
    cases hc : t.currentStation with
    | none =>
      simp only [bucketStep, hn, hc]
      by_cases h1 : s1 ≠ ""
      · rw [if_pos h1]
        exact mem_bucketOf_addToBucket_mono m s1 s t x hx
      · rw [if_neg h1]
        exact hx
    | some s2 =>
      simp only [bucketStep, hn, hc]
      by_cases h1 : s1 ≠ ""
      · rw [if_pos h1]
        by_cases h2 : s2 ≠ ""
        · rw [if_pos h2]
          exact mem_bucketOf_addToBucket_mono _ s2 s t x
            (mem_bucketOf_addToBucket_mono m s1 s t x hx)
        · rw [if_neg h2]
          exact mem_bucketOf_addToBucket_mono m s1 s t x hx
      · rw [if_neg h1]
        by_cases h2 : s2 ≠ ""
        · rw [if_pos h2]
          exact mem_bucketOf_addToBucket_mono m s2 s t x hx
        · rw [if_neg h2]
          exact hx

theorem self_mem_bucketOf_bucketStep (m : List (String × List Train))
    (t : Train) (s : String) (hnext : t.nextStation = some s) (hs : s ≠ "") :
    t ∈ bucketOf (bucketStep m t) s := by
  have hbase : t ∈ bucketOf (addToBucket m s t) s :=
    self_mem_bucketOf_addToBucket m s t
  cases hc : t.currentStation with
  | none =>
    simp only [bucketStep, hnext, hc]
    rw [if_pos hs]
    exact hbase
  | some s2 =>
    simp only [bucketStep, hnext, hc]
    rw [if_pos hs]
    by_cases h2 : s2 ≠ ""
    · rw [if_pos h2]
      exact mem_bucketOf_addToBucket_mono _ s2 s t t hbase
    · rw [if_neg h2]
      exact hbase

theorem mem_bucketOf_foldl_mono (l : List Train)
    (m : List (String × List Train)) (s : String) (x : Train)
    (hx : x ∈ bucketOf m s) : x ∈ bucketOf (l.foldl bucketStep m) s := by
  induction l generalizing m with
  | nil => exact hx
  | cons t rest ih =>
    rw [List.foldl_cons]
    exact ih (bucketStep m t) (mem_bucketOf_bucketStep_mono m t x s hx)

theorem mem_bucketOf_foldl_self (l : List Train) (t : Train) (s : String)
    (ht : t ∈ l) (hnext : t.nextStation = some s) (hs : s ≠ "") :
    ∀ m : List (String × List Train), t ∈ bucketOf (l.foldl bucketStep m) s := by
  induction l with
  | nil => cases ht
  | cons u rest ih =>
    intro m
    rw [List.foldl_cons]
    rcases List.mem_cons.mp ht with rfl | hmem
    · exact mem_bucketOf_foldl_mono rest (bucketStep m t) s t
        (self_mem_bucketOf_bucketStep m t s hnext hs)
    · exact ih hmem (bucketStep m u)

theorem mem_trainsByStation (l : List Train) (t : Train) (s : String)
    (ht : t ∈ l) (hnext : t.nextStation = some s) (hs : s ≠ "") :
    t ∈ bucketOf (trainsByStation l) s :=
  mem_bucketOf_foldl_self l t s ht hnext hs []

/-! ## Every bucketed train comes from the input list -/

theorem addToBucket_bound (m : List (String × List Train)) (k : String)
    (t : Train) (P : Train → Prop)
    (hm : ∀ p ∈ m, ∀ x ∈ p.2, P x) (ht : P t) :
    ∀ p ∈ addToBucket m k t, ∀ x ∈ p.2, P x := by
  induction m with
  | nil =>
    intro p hp x hx
    rw [addToBucket] at hp
    rcases List.mem_singleton.mp hp with rfl
    rcases List.mem_singleton.mp hx with rfl
    exact ht
  | cons q rest ih =>
    intro p hp x hx
    rw [addToBucket] at hp
    split at hp
    · rcases List.mem_cons.mp hp with rfl | hp'
      · rcases List.mem_append.mp hx with hx1 | hx2
        · exact hm q (List.mem_cons_self _ _) x hx1
        · rcases List.mem_singleton.mp hx2 with rfl
          exact ht
      · exact hm p (List.mem_cons_of_mem _ hp') x hx
    · rcases List.mem_cons.mp hp with rfl | hp'
      · exact hm p (List.mem_cons_self _ _) x hx
      · exact ih (fun q' hq' => hm q' (List.mem_cons_of_mem _ hq')) p hp' x hx

theorem bucketStep_bound (m : List (String × List Train)) (t : Train)
    (P : Train → Prop) (hm : ∀ p ∈ m, ∀ x ∈ p.2, P x) (ht : P t) :
    ∀ p ∈ bucketStep m t, ∀ x ∈ p.2, P x := by
  cases hn : t.nextStation with
  | none =>
    cases hc : t.currentStation with
    | none =>
      simp only [bucketStep, hn, hc]
      exact hm
    | some s2 =>
      simp only [bucketStep, hn, hc]
      by_cases h2 : s2 ≠ ""
      · rw [if_pos h2]
        exact addToBucket_bound m s2 t P hm ht
      · rw [if_neg h2]
        exact hm
  | some s1 =>
    cases hc : t.currentStation with
    | none =>
      simp only [bucketStep, hn, hc]
      by_cases h1 : s1 ≠ ""
      · rw [if_pos h1]
        exact addToBucket_bound m s1 t P hm ht
      · rw [if_neg h1]
        exact hm
    | some s2 =>
      simp only [bucketStep, hn, hc]
      by_cases h1 : s1 ≠ ""
      · rw [if_pos h1]
        by_cases h2 : s2 ≠ ""
        · rw [if_pos h2]
          exact addToBucket_bound _ s2 t P (addToBucket_bound m s1 t P hm ht) ht
        · rw [if_neg h2]
          exact addToBucket_bound m s1 t P hm ht
      · rw [if_neg h1]
        by_cases h2 : s2 ≠ ""
        · rw [if_pos h2]
          exact addToBucket_bound m s2 t P hm ht
        · rw [if_neg h2]
          exact hm

theorem foldl_bucketStep_bound (l : List Train) (P : Train → Prop)
    (hl : ∀ t ∈ l, P t) :
    ∀ m : List (String × List Train), (∀ p ∈ m, ∀ x ∈ p.2, P x) →
      ∀ p ∈ l.foldl bucketStep m, ∀ x ∈ p.2, P x := by
  induction l with
  | nil => exact fun m hm => hm
  | cons t rest ih =>
    intro m hm
    rw [List.foldl_cons]
    exact ih (fun u hu => hl u (List.mem_cons_of_mem _ hu)) (bucketStep m t)
      (bucketStep_bound m t P hm (hl t (List.mem_cons_self _ _)))

theorem trainsByStation_bound (l : List Train) :
    ∀ p ∈ trainsByStation l, ∀ x ∈ p.2, x ∈ l :=
  foldl_bucketStep_bound l (fun x => x ∈ l) (fun _ h => h) []
    (fun p hp => absurd hp (List.not_mem_nil p))

/-! ## Pair-loop lemmas -/

theorem stationPairLoop_pairs (C : OptimizationConstraints) (l : List Train)
    (a b : Train) (ha : a ∈ l) (hb : b ∈ l) (hne : a ≠ b) :
    (∀ x ∈ pairChecks C a b, x ∈ stationPairLoop C l) ∨
      (∀ x ∈ pairChecks C b a, x ∈ stationPairLoop C l) := by
  induction l with
  | nil => cases ha
  | cons u rest ih =>
    rcases List.mem_cons.mp ha with rfl | ha'
    · have hb' : b ∈ rest := by
        rcases List.mem_cons.mp hb with heq | h
        · exact absurd heq.symm hne
        · exact h
      left
      intro x hx
      simp only [stationPairLoop]
      exact List.mem_append_left _ (List.mem_flatMap.mpr ⟨b, hb', hx⟩)
    · rcases List.mem_cons.mp hb with rfl | hb'
      · right
        intro x hx
        simp only [stationPairLoop]
        exact List.mem_append_left _ (List.mem_flatMap.mpr ⟨a, ha', hx⟩)
      · rcases ih ha' hb' with h | h
        · left
          intro x hx
          simp only [stationPairLoop]
          exact List.mem_append_right _ (h x hx)
        · right
          intro x hx
          simp only [stationPairLoop]
          exact List.mem_append_right _ (h x hx)

theorem stationPairLoop_inv (C : OptimizationConstraints) (l : List Train)
    (x : Conflict) (hx : x ∈ stationPairLoop C l) :
    ∃ a b, a ∈ l ∧ b ∈ l ∧ x ∈ pairChecks C a b := by
  induction l with
  | nil => cases hx
  | cons t rest ih =>
    simp only [stationPairLoop] at hx
    rcases List.mem_append.mp hx with h | h
    · rcases List.mem_flatMap.mp h with ⟨b, hb, hxb⟩
      exact ⟨t, b, List.mem_cons_self _ _, List.mem_cons_of_mem _ hb, hxb⟩
    · rcases ih h with ⟨a, b, ha, hb, hx'⟩
      exact ⟨a, b, List.mem_cons_of_mem _ ha, List.mem_cons_of_mem _ hb, hx'⟩

theorem pairChecks_inv (C : OptimizationConstraints) (a b : Train)
    (x : Conflict) (hx : x ∈ pairChecks C a b) :
    checkCrossingConflict C a b = some x ∨ checkPlatformConflict C a b = some x := by
  unfold pairChecks at hx
  rcases List.mem_append.mp hx with h | h
  · exact Or.inl (Option.mem_toList.mp h)
  · exact Or.inr (Option.mem_toList.mp h)

/-! ## Characterization of the pairwise checks -/

theorem checkCrossingConflict_inv (C : OptimizationConstraints) (t1 t2 : Train)
    (c : Conflict) (h : checkCrossingConflict C t1 t2 = some c) :
    t1.nextStation = t2.nextStation ∧
    |estimateArrivalTime C t1 - estimateArrivalTime C t2| < C.safetyBuffer ∧
    c.type = .crossing ∧ c.trains = [t1.id, t2.id] ∧
    c.severity = (if |estimateArrivalTime C t1 - estimateArrivalTime C t2| < 1
      then Severity.critical else Severity.medium) ∧
    c.estimatedDelay =
      max 0 (C.safetyBuffer -
        |estimateArrivalTime C t1 - estimateArrivalTime C t2|) := by
  simp only [checkCrossingConflict] at h
  split at h
  · split at h
    · injection h with h
      subst h
      refine ⟨by assumption, by assumption, rfl, rfl, rfl, rfl⟩
    · cases h
  · cases h

theorem checkCrossingConflict_fires (C : OptimizationConstraints)
    (t1 t2 : Train) (hstation : t1.nextStation = t2.nextStation)
    (hgap : |estimateArrivalTime C t1 - estimateArrivalTime C t2| <
      C.safetyBuffer) :
    ∃ c, checkCrossingConflict C t1 t2 = some c ∧ c.type = .crossing ∧
      c.trains = [t1.id, t2.id] := by
  simp only [checkCrossingConflict]
  rw [if_pos hstation, if_pos hgap]
  exact ⟨_, rfl, rfl, rfl⟩

theorem checkPlatformConflict_type (C : OptimizationConstraints)
    (t1 t2 : Train) (c : Conflict) (h : checkPlatformConflict C t1 t2 = some c) :
    c.type = .platform := by
  simp only [checkPlatformConflict] at h
  split at h
  · injection h with h
    subst h
    rfl
  · cases h

theorem checkTrackConflict_type (t1 t2 : Train) (tracks : List Track)
    (c : Conflict) (h : checkTrackConflict t1 t2 tracks = some c) :
    c.type = .track := by
  unfold checkTrackConflict at h
  split at h
  · split at h
    · injection h with h
      subst h
      rfl
    · cases h
  · cases h

theorem trackPairLoop_type (tracks : List Track) (l : List Train) (x : Conflict)
    (hx : x ∈ trackPairLoop tracks l) : x.type = .track := by
  induction l with
  | nil => cases hx
  | cons t rest ih =>
    simp only [trackPairLoop] at hx
    rcases List.mem_append.mp hx with h | h
    · rcases List.mem_filterMap.mp h with ⟨u, _, hcheck⟩
      exact checkTrackConflict_type t u tracks x hcheck
    · exact ih h

/-! ## detectConflicts membership -/

theorem mem_detectConflicts_of_station (C : OptimizationConstraints)
    (ts : List Train) (stations : List Station) (tracks : List Track)
    (c : Conflict) (p : String × List Train)
    (hp : p ∈ trainsByStation (activeTrainsOf ts))
    (hc : c ∈ stationPairLoop C p.2) :
    c ∈ detectConflicts C ts stations tracks := by
  simp only [detectConflicts]
  exact List.mem_append_left _ (List.mem_flatMap.mpr ⟨p, hp, hc⟩)

theorem mem_detectConflicts_inv (C : OptimizationConstraints) (ts : List Train)
    (stations : List Station) (tracks : List Track) (c : Conflict)
    (hc : c ∈ detectConflicts C ts stations tracks) :
    (∃ p ∈ trainsByStation (activeTrainsOf ts), c ∈ stationPairLoop C p.2) ∨
      c ∈ trackPairLoop tracks (activeTrainsOf ts) := by
  simp only [detectConflicts] at hc
  rcases List.mem_append.mp hc with h | h
  · exact Or.inl (List.mem_flatMap.mp h)
  · exact Or.inr h

theorem mem_activeTrainsOf (ts : List Train) (t : Train) :
    t ∈ activeTrainsOf ts ↔ t ∈ ts ∧ t.status ≠ .cancelled := by
  unfold activeTrainsOf
  rw [List.mem_filter]
  constructor
  · rintro ⟨h1, h2⟩
    refine ⟨h1, ?_⟩
    intro hcan
    rw [hcan] at h2
    cases h2
  · rintro ⟨h1, h2⟩
    refine ⟨h1, ?_⟩
    cases hst : t.status
    · rfl
    · rfl
    · exact absurd hst h2
    · rfl

theorem train_id_inj (ts : List Train) (hnodup : (ts.map Train.id).Nodup)
    (a b : Train) (ha : a ∈ ts) (hb : b ∈ ts) (hid : a.id = b.id) : a = b :=
  List.inj_on_of_nodup_map hnodup ha hb hid

theorem detect_crossing_forward (C : OptimizationConstraints) (ts : List Train)
    (stations : List Station) (tracks : List Track) (t1 t2 : Train)
    (hnodup : (ts.map Train.id).Nodup) (h1 : t1 ∈ ts) (h2 : t2 ∈ ts)
    (c : Conflict) (hc : c ∈ detectConflicts C ts stations tracks)
    (hty : c.type = .crossing)
    (htr : c.trains = [t1.id, t2.id] ∨ c.trains = [t2.id, t1.id]) :
    checkCrossingConflict C t1 t2 = some c ∨
      checkCrossingConflict C t2 t1 = some c := by
  rcases mem_detectConflicts_inv C ts stations tracks c hc with ⟨p, hp, hcp⟩ | htrack
  · rcases stationPairLoop_inv C p.2 c hcp with ⟨a, b, hab1, hab2, hpc⟩
    have haT : a ∈ ts :=
      ((mem_activeTrainsOf ts a).mp
        (trainsByStation_bound (activeTrainsOf ts) p hp a hab1)).1
    have hbT : b ∈ ts :=
      ((mem_activeTrainsOf ts b).mp
        (trainsByStation_bound (activeTrainsOf ts) p hp b hab2)).1
    rcases pairChecks_inv C a b c hpc with hcross | hplat
    · have hinv := checkCrossingConflict_inv C a b c hcross
      rcases htr with htr | htr
      · rw [hinv.2.2.2.1] at htr
        obtain ⟨e1, e2⟩ : a.id = t1.id ∧ b.id = t2.id := by
          constructor
          · exact (List.cons.injEq _ _ _ _).mp htr |>.1
          · have := (List.cons.injEq _ _ _ _).mp htr |>.2
            exact ((List.cons.injEq _ _ _ _).mp this).1
        have hA : a = t1 := train_id_inj ts hnodup a t1 haT h1 e1
        have hB : b = t2 := train_id_inj ts hnodup b t2 hbT h2 e2
        left
        rw [← hA, ← hB]
        exact hcross
      · rw [hinv.2.2.2.1] at htr
        obtain ⟨e1, e2⟩ : a.id = t2.id ∧ b.id = t1.id := by
          constructor
          · exact (List.cons.injEq _ _ _ _).mp htr |>.1
          · have := (List.cons.injEq _ _ _ _).mp htr |>.2
            exact ((List.cons.injEq _ _ _ _).mp this).1
        have hA : a = t2 := train_id_inj ts hnodup a t2 haT h2 e1
        have hB : b = t1 := train_id_inj ts hnodup b t1 hbT h1 e2
        right
        rw [← hA, ← hB]
        exact hcross
    · have hpt := checkPlatformConflict_type C a b c hplat
      rw [hpt] at hty
      exact absurd hty (by decide)
  · have htt := trackPairLoop_type tracks _ c htrack
    rw [htt] at hty
    exact absurd hty (by decide)

/-- C7: for active trains sharing a (non-empty) `nextStation`, the detector
emits a crossing conflict for the pair exactly when the absolute arrival-time
gap is below the safety buffer; every such conflict is critical exactly when
the gap is under 1 minute (medium otherwise) and carries estimated delay
`safetyBuffer - gap`; and over all fired crossing checks a smaller gap never
yields a lower severity rank or a smaller estimated delay. -/
theorem claim_C7_crossing_characterization (C : OptimizationConstraints)
    (ts : List Train) (stations : List Station) (tracks : List Track)
    (t1 t2 : Train) (s : String)
    (hmin : 0 < C.minTrainSpeed)
    (hnodup : (ts.map Train.id).Nodup)
    (h1 : t1 ∈ ts) (h2 : t2 ∈ ts)
    (ha1 : t1.status ≠ .cancelled) (ha2 : t2.status ≠ .cancelled)
    (hn1 : t1.nextStation = some s) (hn2 : t2.nextStation = some s)
    (hs : s ≠ "") (hne : t1.id ≠ t2.id) :
    ((∃ c ∈ detectConflicts C ts stations tracks,
        c.type = .crossing ∧
          (c.trains = [t1.id, t2.id] ∨ c.trains = [t2.id, t1.id])) ↔
      |estimateArrivalTime C t1 - estimateArrivalTime C t2| < C.safetyBuffer) ∧
    (∀ c ∈ detectConflicts C ts stations tracks, c.type = .crossing →
      (c.trains = [t1.id, t2.id] ∨ c.trains = [t2.id, t1.id]) →
      c.severity =
        (if |estimateArrivalTime C t1 - estimateArrivalTime C t2| < 1
          then Severity.critical else Severity.medium) ∧
      c.estimatedDelay = C.safetyBuffer -
        |estimateArrivalTime C t1 - estimateArrivalTime C t2|) ∧
    (∀ a b a' b' : Train, ∀ c c' : Conflict,
      checkCrossingConflict C a b = some c →
      checkCrossingConflict C a' b' = some c' →
      |estimateArrivalTime C a - estimateArrivalTime C b| ≤
        |estimateArrivalTime C a' - estimateArrivalTime C b'| →
      sevRank c'.severity ≤ sevRank c.severity ∧
        c'.estimatedDelay ≤ c.estimatedDelay) := by
  have hm1 : t1 ∈ activeTrainsOf ts := (mem_activeTrainsOf ts t1).mpr ⟨h1, ha1⟩
  have hm2 : t2 ∈ activeTrainsOf ts := (mem_activeTrainsOf ts t2).mpr ⟨h2, ha2⟩
  have hsym : |estimateArrivalTime C t2 - estimateArrivalTime C t1| =
      |estimateArrivalTime C t1 - estimateArrivalTime C t2| :=
    abs_sub_comm _ _
  refine ⟨⟨?_, ?_⟩, ?_, ?_⟩
  · rintro ⟨c, hc, hty, htr⟩
    rcases detect_crossing_forward C ts stations tracks t1 t2 hnodup h1 h2 c hc
        hty htr with hfire | hfire
    · exact (checkCrossingConflict_inv C t1 t2 c hfire).2.1
    · have := (checkCrossingConflict_inv C t2 t1 c hfire).2.1
      rwa [hsym] at this
  · intro hgap
    have hneq : t1 ≠ t2 := fun h => hne (congrArg Train.id h)
    have hb1 : t1 ∈ bucketOf (trainsByStation (activeTrainsOf ts)) s :=
      mem_trainsByStation _ t1 s hm1 hn1 hs
    have hb2 : t2 ∈ bucketOf (trainsByStation (activeTrainsOf ts)) s :=
      mem_trainsByStation _ t2 s hm2 hn2 hs
    obtain ⟨p, hp, hpeq⟩ := bucketOf_entry _ s t1 hb1
    have ht1p : t1 ∈ p.2 := by
      rw [hpeq]
      exact hb1
    have ht2p : t2 ∈ p.2 := by
      rw [hpeq]
      exact hb2
    rcases stationPairLoop_pairs C p.2 t1 t2 ht1p ht2p hneq with hcase | hcase
    · obtain ⟨c, hceq, hcty, hctr⟩ := checkCrossingConflict_fires C t1 t2
        (by rw [hn1, hn2]) hgap
      have hcmem : c ∈ pairChecks C t1 t2 := by
        unfold pairChecks
        apply List.mem_append_left
        rw [hceq]
        exact Option.mem_toList.mpr rfl
      exact ⟨c, mem_detectConflicts_of_station C ts stations tracks c p hp
        (hcase c hcmem), hcty, Or.inl hctr⟩
    · obtain ⟨c, hceq, hcty, hctr⟩ := checkCrossingConflict_fires C t2 t1
        (by rw [hn1, hn2]) (by rwa [hsym])
      have hcmem : c ∈ pairChecks C t2 t1 := by
        unfold pairChecks
        apply List.mem_append_left
        rw [hceq]
        exact Option.mem_toList.mpr rfl
      exact ⟨c, mem_detectConflicts_of_station C ts stations tracks c p hp
        (hcase c hcmem), hcty, Or.inr hctr⟩
  · intro c hc hty htr
    rcases detect_crossing_forward C ts stations tracks t1 t2 hnodup h1 h2 c hc
        hty htr with hfire | hfire
    · have hinv := checkCrossingConflict_inv C t1 t2 c hfire
      refine ⟨hinv.2.2.2.2.1, ?_⟩
      rw [hinv.2.2.2.2.2]
      have hpos : (0 : Rat) ≤ C.safetyBuffer -
          |estimateArrivalTime C t1 - estimateArrivalTime C t2| := by
        have := hinv.2.1
        linarith
      exact max_eq_right hpos
    · have hinv := checkCrossingConflict_inv C t2 t1 c hfire
      have hgap := hinv.2.1
      rw [hsym] at hgap
      constructor
      · rw [hinv.2.2.2.2.1, hsym]
      · rw [hinv.2.2.2.2.2, hsym]
        have hpos : (0 : Rat) ≤ C.safetyBuffer -
            |estimateArrivalTime C t1 - estimateArrivalTime C t2| := by
          linarith
        exact max_eq_right hpos
  · intro a b a' b' c c' hcab hcab' hgaple
    have hi := checkCrossingConflict_inv C a b c hcab
    have hi' := checkCrossingConflict_inv C a' b' c' hcab'
    constructor
    · rw [hi.2.2.2.2.1, hi'.2.2.2.2.1]
      by_cases hg : |estimateArrivalTime C a - estimateArrivalTime C b| < 1
      · rw [if_pos hg]
        split
        · exact le_refl _
        · exact Nat.le_of_lt (by decide)
      · rw [if_neg hg]
        have hg' : ¬ |estimateArrivalTime C a' - estimateArrivalTime C b'| < 1 :=
          fun h => hg (lt_of_le_of_lt hgaple h)
        rw [if_neg hg']
    · rw [hi.2.2.2.2.2, hi'.2.2.2.2.2]
      exact max_le_max (le_refl 0) (by linarith)

theorem claim_C7_crossing_characterization_witness :
    (0 < defaultConstraints.minTrainSpeed ∧
      ([wTrainA, wTrainB].map Train.id).Nodup ∧
      wTrainA ∈ [wTrainA, wTrainB] ∧ wTrainB ∈ [wTrainA, wTrainB] ∧
      wTrainA.status ≠ TrainStatus.cancelled ∧
      wTrainB.status ≠ TrainStatus.cancelled ∧
      wTrainA.nextStation = some "S" ∧ wTrainB.nextStation = some "S" ∧
      "S" ≠ "" ∧ wTrainA.id ≠ wTrainB.id) ∧
    (((∃ c ∈ detectConflicts defaultConstraints [wTrainA, wTrainB] [] [],
        c.type = ConflictType.crossing ∧
          (c.trains = [wTrainA.id, wTrainB.id] ∨
            c.trains = [wTrainB.id, wTrainA.id])) ↔
      |estimateArrivalTime defaultConstraints wTrainA -
          estimateArrivalTime defaultConstraints wTrainB| <
        defaultConstraints.safetyBuffer) ∧
    (∀ c ∈ detectConflicts defaultConstraints [wTrainA, wTrainB] [] [],
      c.type = ConflictType.crossing →
      (c.trains = [wTrainA.id, wTrainB.id] ∨
        c.trains = [wTrainB.id, wTrainA.id]) →
      c.severity =
        (if |estimateArrivalTime defaultConstraints wTrainA -
            estimateArrivalTime defaultConstraints wTrainB| < 1
          then Severity.critical else Severity.medium) ∧
      c.estimatedDelay = defaultConstraints.safetyBuffer -
        |estimateArrivalTime defaultConstraints wTrainA -
          estimateArrivalTime defaultConstraints wTrainB|) ∧
    (∀ a b a' b' : Train, ∀ c c' : Conflict,
      checkCrossingConflict defaultConstraints a b = some c →
      checkCrossingConflict defaultConstraints a' b' = some c' →
      |estimateArrivalTime defaultConstraints a -
          estimateArrivalTime defaultConstraints b| ≤
        |estimateArrivalTime defaultConstraints a' -
          estimateArrivalTime defaultConstraints b'| →
      sevRank c'.severity ≤ sevRank c.severity ∧
        c'.estimatedDelay ≤ c.estimatedDelay)) :=
  ⟨⟨by decide, by decide, by decide, by decide, by decide, by decide,
    by decide, by decide, by decide, by decide⟩,
   claim_C7_crossing_characterization defaultConstraints [wTrainA, wTrainB]
     [] [] wTrainA wTrainB "S" (by decide) (by decide) (by decide) (by decide)
     (by decide) (by decide) (by decide) (by decide) (by decide) (by decide)⟩
